import Mathlib

/-!
Shallow embedding of `ds::vec<T>` from `src/include/libds/vec.hpp` (libds).

Modelling conventions:
* `size_type` (`std::size_t`) is modelled as `Nat`.  None of the verified
  scenarios approach `2^64`, and the growth loop is monotone, so wrap-around
  is irrelevant to the claims.
* The heap buffer `T* data_` is modelled as an address (`Addr`, with `0`
  standing for `nullptr`) together with the contents of the allocation, a
  `List (Option T)` of length `capacity_`; `none` is an uninitialized /
  indeterminate slot.
* `std::malloc` is assumed to succeed (the `AllocationFailure` path throws
  and is outside the verified claims); the returned address is passed in as
  a parameter `fresh`, with freshness (`fresh ≠ 0`, distinctness from live
  allocations) as explicit hypotheses where a claim needs them.
* `std::realloc(p, n)` with `p ≠ nullptr` and `n > 0` is modelled as
  resizing in place: contents up to `min(old, new)` are preserved, new slots
  are indeterminate, and the address is unchanged (a moved block keeps the
  same identity for every property verified here: the only address facts
  used are distinctness of simultaneously live allocations, which in-place
  modelling preserves).  `realloc(nullptr, n)` is `malloc(n)`.  In
  particular `realloc(nullptr, 0)` is `malloc(0)`, which on the target
  platform (glibc) returns a unique non-null zero-size allocation.
* `std::memmove` reads the whole source range before writing (overlap
  tolerant); an out-of-bounds read yields an indeterminate value (`none`).
-/

set_option linter.unusedVariables false

namespace LibDS

/-- A machine address; `0` encodes the C++ null pointer. -/
abbrev Addr := Nat

/-- The state of a `ds::vec<T>` object: the three data members
`size_`, `capacity_`, `T* data_` (split into the pointer value `addr_`
and the contents `buf_` of the pointed-to allocation). -/
structure Vec (T : Type) where
  size_ : Nat
  capacity_ : Nat
  addr_ : Addr
  buf_ : List (Option T)
deriving DecidableEq

variable {T : Type}

/-- Well-formedness of the modelled heap: the allocation behind `data_`
holds exactly `capacity_` slots, and at most `capacity_` of them are live. -/
def wf (s : Vec T) : Prop :=
  s.buf_.length = s.capacity_ ∧ s.size_ ≤ s.capacity_

instance (s : Vec T) : Decidable (wf s) := by
  unfold wf; infer_instance

/-- Model of `vec::INITIAL_CAPACITY` (vec.hpp line 76). -/
def INITIAL_CAPACITY : Nat := 10

/-- Model of `vec::next_capacity_` (vec.hpp lines 86-96):
`if (cap <= 1) return 2; return cap + (cap >> 1);`. -/
def next_capacity_ (cap : Nat) : Nat :=
  if cap ≤ 1 then 2 else cap + cap / 2

/-- Model of `vec::alloc_` (vec.hpp lines 104-116): `cap == 0` returns `nullptr`
without allocating; otherwise `malloc` yields a fresh non-null block of
`cap` uninitialized slots (allocation success assumed). -/
def alloc_ (T : Type) (fresh : Addr) (cap : Nat) : Addr × List (Option T) :=
  if cap = 0 then (0, []) else (fresh, List.replicate cap none)

/-- Model of `vec::free_` (vec.hpp lines 144-153): runs the element destructors
(invisible to a value model), `std::free(data_)`, then `data_ = nullptr`.
Note that it leaves `size_` and `capacity_` untouched. -/
def free_ (s : Vec T) : Vec T :=
  { s with addr_ := 0, buf_ := [] }

/-- Model of `vec::copy_` (vec.hpp lines 162-166): `std::memmove(dest, src, n*sizeof(T))`,
here generalized to offsets `destOff`/`srcOff` into the destination and source
allocations (the call sites pass `&data_[k]`).  memmove semantics: every source
element is read at its pre-call value, so overlapping ranges are handled;
reading outside the source allocation gives an indeterminate value. -/
def copy_ (dest : List (Option T)) (destOff : Nat)
    (src : List (Option T)) (srcOff : Nat) (n : Nat) : List (Option T) :=
  (List.range dest.length).map (fun i =>
    if destOff ≤ i ∧ i < destOff + n then src.getD (srcOff + (i - destOff)) none
    else dest.getD i none)

/-- Model of `vec::resize_` (vec.hpp lines 123-139):
`if (new_cap == 0) free_();` then `data_ = realloc(data_, new_cap)`,
`capacity_ = new_cap`.  realloc from `nullptr` is `malloc`, which even for
`new_cap == 0` returns a non-null zero-size block (glibc), its address
supplied as `fresh`; realloc from a non-null pointer keeps the contents up
to `new_cap` and leaves any grown tail uninitialized. -/
def resize_ (fresh : Addr) (s : Vec T) (new_cap : Nat) : Vec T :=
  let s1 := if new_cap = 0 then free_ s else s
  { s1 with
    addr_ := if s1.addr_ = 0 then fresh else s1.addr_,
    buf_ := (List.range new_cap).map (fun i => s1.buf_.getD i none),
    capacity_ := new_cap }

/-- Model of `vec::reserve` (vec.hpp lines 492-497): `if (new_cap > capacity_) resize_(new_cap);`. -/
def reserve (fresh : Addr) (s : Vec T) (new_cap : Nat) : Vec T :=
  if new_cap > s.capacity_ then resize_ fresh s new_cap else s

/-- Model of `vec::shrink_to_fit` (vec.hpp lines 504-508): `resize_(size_);`. -/
def shrink_to_fit (fresh : Addr) (s : Vec T) : Vec T :=
  resize_ fresh s s.size_

/-- Model of `vec::clear` (vec.hpp lines 571-575): `size_ = 0;` (capacity untouched). -/
def clear (s : Vec T) : Vec T :=
  { s with size_ := 0 }

theorem next_capacity_gt (cap : Nat) : cap < next_capacity_ cap := by
  unfold next_capacity_
  split <;> omega

/-- Iteration engine for the capacity-search loop of `vec::shift_`.  The
C++ loop `while (target > new_cap) new_cap = next_capacity_(new_cap);`
terminates because `next_capacity_` strictly increases its argument, so at
most `target - cap` iterations run; `fuel` carries that bound to keep the
definition structurally recursive (hence kernel-computable).  The
characteristic equation of the loop is proved as `growLoop_unfold`. -/
def growLoopAux (fuel cap target : Nat) : Nat :=
  match fuel with
  | 0 => cap
  | Nat.succ f => if target ≤ cap then cap else growLoopAux f (next_capacity_ cap) target

/-- The capacity-search loop in `vec::shift_` (vec.hpp lines 177-180):
`new_cap = capacity_; while (size_ + places > new_cap) new_cap = next_capacity_(new_cap);`
with `target = size_ + places`. -/
def growLoop (cap target : Nat) : Nat :=
  growLoopAux (target - cap) cap target

/-- Model of `vec::shift_` (vec.hpp lines 174-188): grow via the `next_capacity_`
loop and `reserve`, then
`copy_(&data_[start + places], &data_[start], size_ - start)`,
then `size_ += places`. -/
def shift_ (fresh : Addr) (s : Vec T) (start places : Nat) : Vec T :=
  let new_cap := growLoop s.capacity_ (s.size_ + places)
  let s1 := reserve fresh s new_cap
  let s2 := { s1 with
    buf_ := copy_ s1.buf_ (start + places) s1.buf_ start (s1.size_ - start) }
  { s2 with size_ := s2.size_ + places }

/-- The loop `for (i = pos; i < pos + count; i++) data_[i] = elem;`
(vec.hpp lines 629-630, also the fill-constructor loop lines 213-214). -/
def writeFill (buf : List (Option T)) (pos count : Nat) (elem : T) : List (Option T) :=
  match count with
  | 0 => buf
  | Nat.succ c => writeFill (buf.set pos (some elem)) (pos + 1) c elem

/-- The loop `for (i = 0; i < elems.size(); i++) data_[i + pos] = elem_data[i];`
(vec.hpp lines 650-651, also the initializer-list-constructor loop lines 226-229). -/
def writeSeq (buf : List (Option T)) (pos : Nat) (elems : List T) : List (Option T) :=
  match elems with
  | [] => buf
  | e :: rest => writeSeq (buf.set pos (some e)) (pos + 1) rest

/-- Model of `vec(size_type capacity)` (vec.hpp lines 200-202): `size_ = 0`,
`capacity_ = capacity`, `data_ = alloc_(capacity_)`. -/
def vecNew (T : Type) (fresh : Addr) (capacity : Nat) : Vec T :=
  { size_ := 0, capacity_ := capacity,
    addr_ := (alloc_ T fresh capacity).1, buf_ := (alloc_ T fresh capacity).2 }

/-- The default constructor `vec()` = `vec(INITIAL_CAPACITY)`. -/
def vecDefault (T : Type) (fresh : Addr) : Vec T :=
  vecNew T fresh INITIAL_CAPACITY

/-- Model of `vec(size_type size, T elem)` (vec.hpp lines 210-215). -/
def vecFill (fresh : Addr) (size : Nat) (elem : T) : Vec T :=
  { size_ := size, capacity_ := size,
    addr_ := (alloc_ T fresh size).1,
    buf_ := writeFill (alloc_ T fresh size).2 0 size elem }

/-- Model of `vec(std::initializer_list<T> init)` (vec.hpp lines 222-230). -/
def vecOfList (fresh : Addr) (init : List T) : Vec T :=
  { size_ := init.length, capacity_ := init.length,
    addr_ := (alloc_ T fresh init.length).1,
    buf_ := writeSeq (alloc_ T fresh init.length).2 0 init }

/-- Copy constructor `vec(const vec&)` (vec.hpp lines 237-241):
`size_(other.size_), capacity_(other.capacity_), data_(alloc_(capacity_))`
then `copy_(data_, other.data_, capacity_)`. -/
def vecCopyCtor (fresh : Addr) (other : Vec T) : Vec T :=
  { size_ := other.size_, capacity_ := other.capacity_,
    addr_ := (alloc_ T fresh other.capacity_).1,
    buf_ := copy_ (alloc_ T fresh other.capacity_).2 0 other.buf_ 0 other.capacity_ }

/-- Move constructor `vec(vec&&)` (vec.hpp lines 248-252): exchanges
`other`'s members with `0 / 0 / nullptr`.  Returns the pair
(constructed vector, moved-from source). -/
def vecMoveCtor (other : Vec T) : Vec T × Vec T :=
  ({ size_ := other.size_, capacity_ := other.capacity_,
     addr_ := other.addr_, buf_ := other.buf_ },
   { size_ := 0, capacity_ := 0, addr_ := 0, buf_ := [] })

/-- Copy assignment `operator=(const vec&)` (vec.hpp lines 260-275).
`self` is the address-identity check `this == &other` (when it is true the
two arguments denote the same object).  Otherwise:
`if (capacity_ < other.size_) resize_(other.size_); size_ = other.size_;
copy_(data_, other.data_, capacity_);`. -/
def opAssignCopy (self : Bool) (fresh : Addr) (s other : Vec T) : Vec T :=
  if self then s
  else
    let s1 := if s.capacity_ < other.size_ then resize_ fresh s other.size_ else s
    let s2 := { s1 with size_ := other.size_ }
    { s2 with buf_ := copy_ s2.buf_ 0 other.buf_ 0 s2.capacity_ }

/-- Move assignment `operator=(vec&&)` (vec.hpp lines 283-299).  `self` is
the `this == &other` check.  Otherwise: `free_()` our buffer, then adopt
`other`'s members, resetting `other` to `0 / 0 / nullptr`.  Returns the
pair (assigned-to vector, moved-from source). -/
def opAssignMove (self : Bool) (s other : Vec T) : Vec T × Vec T :=
  if self then (s, other)
  else
    let s1 := free_ s
    ({ size_ := other.size_, capacity_ := other.capacity_,
       addr_ := other.addr_, buf_ := other.buf_ },
     { size_ := 0, capacity_ := 0, addr_ := 0, buf_ := [] })

/-- Model of `operator[](size_type pos)` (vec.hpp lines 318-336): `data_[pos]`,
no bounds check (reading a non-live slot returns the indeterminate `none`). -/
def opIndex (s : Vec T) (pos : Nat) : Option T :=
  s.buf_.getD pos none

/-- The error conditions of the vector. -/
inductive VecErr where
  | outOfRange
  | allocFailure
deriving DecidableEq

/-- Model of `at(size_type pos)` (vec.hpp lines 347-370):
`if (pos >= size_) throw std::out_of_range(...); return data_[pos];`. -/
def at' (s : Vec T) (pos : Nat) : Except VecErr (Option T) :=
  if pos ≥ s.size_ then Except.error VecErr.outOfRange
  else Except.ok (s.buf_.getD pos none)

/-- Model of `insert(size_type pos, const T& elem)` / the `T&&` overload
(vec.hpp lines 587-613): `shift_(pos, 1); data_[pos] = elem; return data_ + pos;`.
The returned iterator `data_ + pos` is modelled as the offset `pos`. -/
def insert (fresh : Addr) (s : Vec T) (pos : Nat) (elem : T) : Vec T × Nat :=
  let s1 := shift_ fresh s pos 1
  ({ s1 with buf_ := s1.buf_.set pos (some elem) }, pos)

/-- Model of `insert(size_type pos, size_type count, const T& elem)`
(vec.hpp lines 624-633): `shift_(pos, count);` then the fill loop, returning
`data_ + pos`. -/
def insertCount (fresh : Addr) (s : Vec T) (pos count : Nat) (elem : T) : Vec T × Nat :=
  let s1 := shift_ fresh s pos count
  ({ s1 with buf_ := writeFill s1.buf_ pos count elem }, pos)

/-- Model of `insert(size_type pos, std::initializer_list<T> elems)`
(vec.hpp lines 644-654): `shift_(pos, elems.size());` then the copy loop,
returning `data_ + pos`. -/
def insertList (fresh : Addr) (s : Vec T) (pos : Nat) (elems : List T) : Vec T × Nat :=
  let s1 := shift_ fresh s pos elems.length
  ({ s1 with buf_ := writeSeq s1.buf_ pos elems }, pos)

/-- Model of `operator==` (vec.hpp lines 660-677): identity short-circuit (`sameObj`
is `&lhs == &rhs`), then size comparison, then the element loop over
`[0, size_)` using `operator[]`. -/
def vecEq [DecidableEq T] (sameObj : Bool) (lhs rhs : Vec T) : Bool :=
  if sameObj then true
  else if lhs.size_ ≠ rhs.size_ then false
  else (List.range lhs.size_).all (fun i => opIndex lhs i = opIndex rhs i)

/-- The sequence of live elements, `data_[0] … data_[size_ - 1]`. -/
def liveSeq (s : Vec T) : List (Option T) :=
  (List.range s.size_).map (fun i => s.buf_.getD i none)

/-- List `l` with `new` spliced in at position `pos` (the spec's description of
insertion). -/
def spliceAt (l : List α) (pos : Nat) (new : List α) : List α :=
  l.take pos ++ new ++ l.drop pos

/-! ### Helper lemmas about the buffer primitives -/

theorem getD_range_map (f : Nat → Option T) (n i : Nat) (hi : i < n) :
    ((List.range n).map f).getD i none = f i := by
  simp [List.getD_eq_getElem?_getD, List.getElem?_map, List.getElem?_range hi]

theorem copy_length (dest : List (Option T)) (destOff : Nat)
    (src : List (Option T)) (srcOff n : Nat) :
    (copy_ dest destOff src srcOff n).length = dest.length := by
  simp [copy_]

theorem copy_read (dest : List (Option T)) (destOff : Nat)
    (src : List (Option T)) (srcOff n i : Nat) (hi : i < dest.length) :
    (copy_ dest destOff src srcOff n).getD i none =
      if destOff ≤ i ∧ i < destOff + n then src.getD (srcOff + (i - destOff)) none
      else dest.getD i none := by
  unfold copy_
  exact getD_range_map _ _ _ hi

theorem resize_pos_spec (fresh : Addr) (s : Vec T) (new_cap : Nat) (h : new_cap ≠ 0) :
    (resize_ fresh s new_cap).size_ = s.size_ ∧
    (resize_ fresh s new_cap).capacity_ = new_cap ∧
    (resize_ fresh s new_cap).buf_.length = new_cap ∧
    ∀ i, i < new_cap → (resize_ fresh s new_cap).buf_.getD i none = s.buf_.getD i none := by
  unfold resize_
  refine ⟨by simp [h], by simp [h], by simp [h], fun i hi => ?_⟩
  simp only [h, if_neg (fun hc => h hc)]
  simpa [h] using getD_range_map (fun j => s.buf_.getD j none) new_cap i hi

theorem reserve_of_ge (fresh : Addr) (s : Vec T) (n : Nat) (hwf : wf s)
    (hge : s.capacity_ ≤ n) :
    (reserve fresh s n).size_ = s.size_ ∧
    (reserve fresh s n).capacity_ = n ∧
    (reserve fresh s n).buf_.length = n ∧
    ∀ i, i < n → (reserve fresh s n).buf_.getD i none = s.buf_.getD i none := by
  unfold reserve
  by_cases hgt : n > s.capacity_
  · have hn : n ≠ 0 := by omega
    simpa [hgt] using resize_pos_spec fresh s n hn
  · have heq : n = s.capacity_ := by omega
    simp [hgt, heq, hwf.1]

theorem growLoopAux_zero_eq (cap target : Nat) : growLoopAux 0 cap target = cap := rfl

theorem growLoopAux_succ_eq (f cap target : Nat) :
    growLoopAux (f + 1) cap target
      = if target ≤ cap then cap else growLoopAux f (next_capacity_ cap) target := rfl

theorem growLoopAux_stable (fuel cap target : Nat) (h : target - cap ≤ fuel) :
    growLoopAux (fuel + 1) cap target = growLoopAux fuel cap target := by
  induction fuel generalizing cap with
  | zero =>
    have hc : target ≤ cap := by omega
    rw [growLoopAux_succ_eq, if_pos hc, growLoopAux_zero_eq]
  | succ f ih =>
    by_cases hc : target ≤ cap
    · rw [growLoopAux_succ_eq (f + 1) cap target, if_pos hc,
        growLoopAux_succ_eq f cap target, if_pos hc]
    · have hnx := next_capacity_gt cap
      rw [growLoopAux_succ_eq (f + 1) cap target, if_neg hc,
        growLoopAux_succ_eq f cap target, if_neg hc]
      exact ih (next_capacity_ cap) (by omega)

theorem growLoopAux_add (d tc cap target : Nat) (h : target - cap ≤ tc) :
    growLoopAux (tc + d) cap target = growLoopAux tc cap target := by
  induction d with
  | zero => rfl
  | succ d ih =>
    have he : tc + (d + 1) = (tc + d) + 1 := by omega
    rw [he, growLoopAux_stable (tc + d) cap target (by omega), ih]

/-- The characteristic equation of the `while` loop in `vec::shift_`. -/
theorem growLoop_unfold (cap target : Nat) :
    growLoop cap target = if target ≤ cap then cap else growLoop (next_capacity_ cap) target := by
  by_cases hc : target ≤ cap
  · rw [if_pos hc, growLoop, Nat.sub_eq_zero_of_le hc, growLoopAux_zero_eq]
  · rw [if_neg hc, growLoop, growLoop]
    obtain ⟨g, hgeq⟩ : ∃ g, target - cap = g + 1 := ⟨target - cap - 1, by omega⟩
    rw [hgeq, growLoopAux_succ_eq g cap target, if_neg hc]
    have hnx := next_capacity_gt cap
    have hg2 : g = (target - next_capacity_ cap) + (g - (target - next_capacity_ cap)) := by
      omega
    conv_lhs => rw [hg2]
    exact growLoopAux_add _ _ _ _ (Nat.le_refl _)

theorem growLoopAux_ge_cap (fuel cap target : Nat) : cap ≤ growLoopAux fuel cap target := by
  induction fuel generalizing cap with
  | zero => exact Nat.le_refl cap
  | succ f ih =>
    rw [growLoopAux_succ_eq]
    by_cases hc : target ≤ cap
    · rw [if_pos hc]
    · rw [if_neg hc]
      have h1 := next_capacity_gt cap
      have h2 := ih (next_capacity_ cap)
      omega

theorem growLoop_ge_cap (cap target : Nat) : cap ≤ growLoop cap target :=
  growLoopAux_ge_cap _ _ _

theorem growLoopAux_ge_target (fuel cap target : Nat) (h : target ≤ cap + fuel) :
    target ≤ growLoopAux fuel cap target := by
  induction fuel generalizing cap with
  | zero => rw [growLoopAux_zero_eq]; omega
  | succ f ih =>
    rw [growLoopAux_succ_eq]
    by_cases hc : target ≤ cap
    · rw [if_pos hc]; exact hc
    · rw [if_neg hc]
      have h1 := next_capacity_gt cap
      exact ih (next_capacity_ cap) (by omega)

theorem growLoop_ge_target (cap target : Nat) : target ≤ growLoop cap target :=
  growLoopAux_ge_target _ _ _ (by omega)

theorem growLoop_eq_of_le (cap target : Nat) (h : target ≤ cap) :
    growLoop cap target = cap := by
  rw [growLoop, Nat.sub_eq_zero_of_le h, growLoopAux_zero_eq]

theorem shift_spec (fresh : Addr) (s : Vec T) (start places : Nat) (hwf : wf s)
    (hs : start ≤ s.size_) :
    (shift_ fresh s start places).size_ = s.size_ + places ∧
    (shift_ fresh s start places).capacity_ = growLoop s.capacity_ (s.size_ + places) ∧
    (shift_ fresh s start places).buf_.length = growLoop s.capacity_ (s.size_ + places) ∧
    ∀ i, i < growLoop s.capacity_ (s.size_ + places) →
      (shift_ fresh s start places).buf_.getD i none =
        if start + places ≤ i ∧ i < s.size_ + places
        then s.buf_.getD (i - places) none
        else s.buf_.getD i none := by
  have hcap : s.capacity_ ≤ growLoop s.capacity_ (s.size_ + places) :=
    growLoop_ge_cap _ _
  obtain ⟨hsz, hcp, hln, hrd⟩ := reserve_of_ge fresh s
    (growLoop s.capacity_ (s.size_ + places)) hwf hcap
  unfold shift_
  refine ⟨by simpa using hsz, by simpa using hcp, by simpa using (copy_length _ _ _ _ _).trans hln, fun i hi => ?_⟩
  simp only
  rw [copy_read _ _ _ _ _ _ (by rw [hln]; exact hi)]
  rw [hsz]
  by_cases hc : start + places ≤ i ∧ i < s.size_ + places
  · have hc' : start + places ≤ i ∧ i < start + places + (s.size_ - start) := by omega
    rw [if_pos hc', if_pos hc]
    have : start + (i - (start + places)) = i - places := by omega
    rw [this]
    exact hrd _ (by omega)
  · have hc' : ¬(start + places ≤ i ∧ i < start + places + (s.size_ - start)) := by omega
    rw [if_neg hc', if_neg hc]
    exact hrd _ hi

theorem writeFill_length (buf : List (Option T)) (pos count : Nat) (elem : T) :
    (writeFill buf pos count elem).length = buf.length := by
  induction count generalizing buf pos with
  | zero => rfl
  | succ c ih => rw [writeFill, ih]; simp

theorem writeFill_read (buf : List (Option T)) (pos count : Nat) (elem : T) (i : Nat) :
    (writeFill buf pos count elem).getD i none =
      if pos ≤ i ∧ i < pos + count ∧ i < buf.length then some elem
      else buf.getD i none := by
  induction count generalizing buf pos with
  | zero =>
    rw [writeFill]
    rw [if_neg (by omega)]
  | succ c ih =>
    rw [writeFill, ih]
    simp only [List.length_set]
    by_cases hip : i = pos
    · subst hip
      rw [if_neg (by omega)]
      by_cases hlen : i < buf.length
      · rw [if_pos ⟨Nat.le_refl i, by omega, hlen⟩]
        simp [List.getD_eq_getElem?_getD, List.getElem?_set_self hlen]
      · rw [if_neg (by omega)]
        rw [List.getD_eq_getElem?_getD, List.getD_eq_getElem?_getD,
          List.getElem?_eq_none (l := buf.set i _) (by simp; omega),
          List.getElem?_eq_none (l := buf) (by omega)]
    · have hset : (buf.set pos (some elem)).getD i none = buf.getD i none := by
        simp [List.getD_eq_getElem?_getD, List.getElem?_set_ne (fun h => hip h.symm)]
      by_cases hc : pos ≤ i ∧ i < pos + (c + 1) ∧ i < buf.length
      · rw [if_pos (by omega), if_pos hc]
      · rw [if_neg (by omega), if_neg hc, hset]

theorem writeSeq_length (buf : List (Option T)) (pos : Nat) (elems : List T) :
    (writeSeq buf pos elems).length = buf.length := by
  induction elems generalizing buf pos with
  | nil => rfl
  | cons e rest ih => rw [writeSeq, ih]; simp

theorem writeSeq_read (buf : List (Option T)) (pos : Nat) (elems : List T) (i : Nat) :
    (writeSeq buf pos elems).getD i none =
      if pos ≤ i ∧ i < pos + elems.length ∧ i < buf.length then elems[i - pos]?
      else buf.getD i none := by
  induction elems generalizing buf pos with
  | nil =>
    rw [writeSeq]
    rw [if_neg (by simp; omega)]
  | cons e rest ih =>
    rw [writeSeq, ih]
    simp only [List.length_set, List.length_cons]
    by_cases hip : i = pos
    · subst hip
      rw [if_neg (by omega)]
      by_cases hlen : i < buf.length
      · rw [if_pos ⟨Nat.le_refl i, by omega, hlen⟩]
        simp [List.getD_eq_getElem?_getD, List.getElem?_set_self hlen]
      · rw [if_neg (by omega)]
        rw [List.getD_eq_getElem?_getD, List.getD_eq_getElem?_getD,
          List.getElem?_eq_none (l := buf.set i _) (by simp; omega),
          List.getElem?_eq_none (l := buf) (by omega)]
    · have hset : (buf.set pos (some e)).getD i none = buf.getD i none := by
        simp [List.getD_eq_getElem?_getD, List.getElem?_set_ne (fun h => hip h.symm)]
      by_cases hc : pos ≤ i ∧ i < pos + (rest.length + 1) ∧ i < buf.length
      · rw [if_pos (by omega), if_pos hc]
        have h1 : i - (pos + 1) + 1 = i - pos := by omega
        have h2 : (e :: rest)[i - pos]? = rest[i - (pos + 1)]? := by
          rw [← h1, List.getElem?_cons_succ]
        rw [h2]
      · rw [if_neg (by omega), if_neg hc, hset]

/-! ### The live-element sequence -/

theorem liveSeq_length (s : Vec T) : (liveSeq s).length = s.size_ := by
  simp [liveSeq]

theorem liveSeq_getElem? (s : Vec T) (i : Nat) :
    (liveSeq s)[i]? = if i < s.size_ then some (s.buf_.getD i none) else none := by
  unfold liveSeq
  by_cases h : i < s.size_
  · simp [List.getElem?_map, List.getElem?_range h, h]
  · rw [if_neg h]
    exact List.getElem?_eq_none (by simpa using Nat.le_of_not_lt h)

/-- If a vector `r` of size `size + k` reads, slotwise, as: the old live
elements below `pos`, the `k` new values in `[pos, pos + k)`, and the old
live elements shifted up by `k` above, then its live sequence is the old
live sequence with the new values spliced in at `pos`. -/
theorem liveSeq_splice_of_reads (s r : Vec T) (pos k : Nat) (news : List (Option T))
    (hpos : pos ≤ s.size_) (hk : news.length = k)
    (hsize : r.size_ = s.size_ + k)
    (hread1 : ∀ i, i < pos → r.buf_.getD i none = s.buf_.getD i none)
    (hread2 : ∀ i, pos ≤ i → i < pos + k → r.buf_.getD i none = news.getD (i - pos) none)
    (hread3 : ∀ i, pos + k ≤ i → i < s.size_ + k → r.buf_.getD i none = s.buf_.getD (i - k) none) :
    liveSeq r = spliceAt (liveSeq s) pos news := by
  have hlt : (liveSeq s).length = s.size_ := liveSeq_length s
  have hlt' : ((liveSeq s).take pos).length = pos := by
    rw [List.length_take, hlt]
    omega
  have hA : (List.take pos (liveSeq s) ++ news).length = pos + k := by
    rw [List.length_append, hlt', hk]
  apply List.ext_getElem?
  intro n
  rw [liveSeq_getElem?, hsize]
  unfold spliceAt
  by_cases h1 : n < pos
  · rw [if_pos (by omega)]
    rw [List.getElem?_append_left (by rw [hA]; omega),
      List.getElem?_append_left (by rw [hlt']; omega),
      List.getElem?_take_of_lt h1, liveSeq_getElem?, if_pos (by omega),
      hread1 n h1]
  · by_cases h2 : n < pos + k
    · rw [if_pos (by omega)]
      rw [List.getElem?_append_left (by rw [hA]; omega),
        List.getElem?_append_right (by rw [hlt']; omega), hlt']
      rw [hread2 n (by omega) h2]
      have hlt2 : n - pos < news.length := by omega
      rw [List.getD_eq_getElem?_getD, List.getElem?_eq_getElem hlt2]
      rfl
    · rw [List.getElem?_append_right (by rw [hA]; omega), hA,
        List.getElem?_drop, liveSeq_getElem?]
      have harith : pos + (n - (pos + k)) = n - k := by omega
      rw [harith]
      by_cases h3 : n < s.size_ + k
      · rw [if_pos h3, if_pos (by omega), hread3 n (by omega) h3]
      · rw [if_neg h3, if_neg (by omega)]

theorem alloc_length (fresh : Addr) (cap : Nat) :
    ((alloc_ T fresh cap).2).length = cap := by
  unfold alloc_
  by_cases h : cap = 0 <;> simp [h]

theorem resize_pos_addr (fresh : Addr) (s : Vec T) (new_cap : Nat) (h : new_cap ≠ 0) :
    (resize_ fresh s new_cap).addr_ = if s.addr_ = 0 then fresh else s.addr_ := by
  unfold resize_
  simp [h]

theorem liveSeq_eq_of_reads (a r : Vec T) (hsz : r.size_ = a.size_)
    (hrd : ∀ i, i < a.size_ → r.buf_.getD i none = a.buf_.getD i none) :
    liveSeq r = liveSeq a := by
  apply List.ext_getElem?
  intro i
  rw [liveSeq_getElem?, liveSeq_getElem?, hsz]
  by_cases hi : i < a.size_
  · rw [if_pos hi, if_pos hi, hrd i hi]
  · rw [if_neg hi, if_neg hi]

theorem vecEq_of_liveSeq [DecidableEq T] (a b : Vec T)
    (hsz : a.size_ = b.size_) (hls : liveSeq a = liveSeq b) :
    vecEq false a b = true := by
  unfold vecEq
  rw [if_neg Bool.false_ne_true, if_neg (by simpa using hsz)]
  rw [List.all_eq_true]
  intro i hi
  rw [List.mem_range] at hi
  have ha := liveSeq_getElem? a i
  have hb := liveSeq_getElem? b i
  rw [hls, hb, if_pos (by omega)] at ha
  rw [if_pos hi] at ha
  rw [Option.some_inj] at ha
  simp only [List.getD_eq_getElem?_getD] at ha
  simp only [opIndex, decide_eq_true_eq, List.getD_eq_getElem?_getD]
  exact ha.symm

/-! ### Insert-family specifications -/

theorem insertCount_spec (fresh : Addr) (s : Vec T) (pos count : Nat) (elem : T)
    (hwf : wf s) (hpos : pos ≤ s.size_) :
    liveSeq (insertCount fresh s pos count elem).1
      = spliceAt (liveSeq s) pos (List.replicate count (some elem)) ∧
    (insertCount fresh s pos count elem).1.size_ = s.size_ + count ∧
    (insertCount fresh s pos count elem).1.capacity_ = growLoop s.capacity_ (s.size_ + count) ∧
    (insertCount fresh s pos count elem).2 = pos := by
  obtain ⟨hsz, hcp, hln, hrd⟩ := shift_spec fresh s pos count hwf hpos
  have htar : s.size_ + count ≤ growLoop s.capacity_ (s.size_ + count) :=
    growLoop_ge_target _ _
  refine ⟨?_, hsz, hcp, rfl⟩
  apply liveSeq_splice_of_reads s ((insertCount fresh s pos count elem).1) pos count
    (List.replicate count (some elem)) hpos (by simp) hsz
  · intro i hi
    show (writeFill (shift_ fresh s pos count).buf_ pos count elem).getD i none = _
    rw [writeFill_read, if_neg (by omega), hrd i (by omega), if_neg (by omega)]
  · intro i hi1 hi2
    show (writeFill (shift_ fresh s pos count).buf_ pos count elem).getD i none = _
    rw [writeFill_read, if_pos ⟨hi1, hi2, by rw [hln]; omega⟩]
    rw [List.getD_eq_getElem?_getD, List.getElem?_replicate_of_lt (by omega)]
    rfl
  · intro i hi1 hi2
    show (writeFill (shift_ fresh s pos count).buf_ pos count elem).getD i none = _
    rw [writeFill_read, if_neg (by omega), hrd i (by omega), if_pos ⟨by omega, hi2⟩]

theorem insertList_spec (fresh : Addr) (s : Vec T) (pos : Nat) (elems : List T)
    (hwf : wf s) (hpos : pos ≤ s.size_) :
    liveSeq (insertList fresh s pos elems).1
      = spliceAt (liveSeq s) pos (elems.map some) ∧
    (insertList fresh s pos elems).1.size_ = s.size_ + elems.length ∧
    (insertList fresh s pos elems).1.capacity_
      = growLoop s.capacity_ (s.size_ + elems.length) ∧
    (insertList fresh s pos elems).2 = pos := by
  obtain ⟨hsz, hcp, hln, hrd⟩ := shift_spec fresh s pos elems.length hwf hpos
  have htar : s.size_ + elems.length ≤ growLoop s.capacity_ (s.size_ + elems.length) :=
    growLoop_ge_target _ _
  refine ⟨?_, hsz, hcp, rfl⟩
  apply liveSeq_splice_of_reads s ((insertList fresh s pos elems).1) pos elems.length
    (elems.map some) hpos (by simp) hsz
  · intro i hi
    show (writeSeq (shift_ fresh s pos elems.length).buf_ pos elems).getD i none = _
    rw [writeSeq_read, if_neg (by omega), hrd i (by omega), if_neg (by omega)]
  · intro i hi1 hi2
    show (writeSeq (shift_ fresh s pos elems.length).buf_ pos elems).getD i none = _
    rw [writeSeq_read, if_pos ⟨hi1, hi2, by rw [hln]; omega⟩]
    have hlt : i - pos < elems.length := by omega
    rw [List.getElem?_eq_getElem hlt, List.getD_eq_getElem?_getD,
      List.getElem?_map, List.getElem?_eq_getElem hlt]
    rfl
  · intro i hi1 hi2
    show (writeSeq (shift_ fresh s pos elems.length).buf_ pos elems).getD i none = _
    rw [writeSeq_read, if_neg (by omega), hrd i (by omega), if_pos ⟨by omega, hi2⟩]

theorem insert_eq_insertCount (fresh : Addr) (s : Vec T) (pos : Nat) (elem : T) :
    insert fresh s pos elem = insertCount fresh s pos 1 elem := rfl

theorem insert_spec (fresh : Addr) (s : Vec T) (pos : Nat) (elem : T)
    (hwf : wf s) (hpos : pos ≤ s.size_) :
    liveSeq (insert fresh s pos elem).1 = spliceAt (liveSeq s) pos [some elem] ∧
    (insert fresh s pos elem).1.size_ = s.size_ + 1 ∧
    (insert fresh s pos elem).1.capacity_ = growLoop s.capacity_ (s.size_ + 1) ∧
    (insert fresh s pos elem).2 = pos := by
  rw [insert_eq_insertCount]
  simpa using insertCount_spec fresh s pos 1 elem hwf hpos

/-! ### Claim theorems -/

/-- C10: a default-constructed `vec` has size 0 and capacity exactly 10
(`INITIAL_CAPACITY`), with a non-null eagerly allocated buffer of 10 slots. -/
theorem C10_default_construction (fresh : Addr) (hfr : fresh ≠ 0) :
    (vecDefault T fresh).size_ = 0 ∧
    (vecDefault T fresh).capacity_ = INITIAL_CAPACITY ∧
    INITIAL_CAPACITY = 10 ∧
    (vecDefault T fresh).addr_ ≠ 0 ∧
    (vecDefault T fresh).buf_.length = 10 := by
  unfold vecDefault vecNew alloc_ INITIAL_CAPACITY
  simp [hfr]

theorem C10_default_construction_witness :
    (1 : Addr) ≠ 0 ∧
    ((vecDefault Nat 1).size_ = 0 ∧
     (vecDefault Nat 1).capacity_ = INITIAL_CAPACITY ∧
     INITIAL_CAPACITY = 10 ∧
     (vecDefault Nat 1).addr_ ≠ 0 ∧
     (vecDefault Nat 1).buf_.length = 10) :=
  ⟨by decide, C10_default_construction 1 (by decide)⟩

/-- C4: for `pos < size`, `at(pos)` returns the same element as
`operator[](pos)`; for `pos ≥ size`, `at(pos)` signals OutOfRange and never
returns an element. -/
theorem C4_at_bounds_check (s : Vec T) (pos : Nat) :
    (pos < s.size_ → at' s pos = Except.ok (opIndex s pos)) ∧
    (pos ≥ s.size_ → at' s pos = Except.error VecErr.outOfRange) := by
  constructor
  · intro h
    unfold at' opIndex
    rw [if_neg (by omega)]
  · intro h
    unfold at'
    rw [if_pos h]

theorem C4_at_bounds_check_witness :
    (1 < (vecOfList 1 [(10 : Nat), 20]).size_ ∧
      at' (vecOfList 1 [(10 : Nat), 20]) 1
        = Except.ok (opIndex (vecOfList 1 [(10 : Nat), 20]) 1)) ∧
    ((vecOfList 1 [(10 : Nat), 20]).size_ ≤ 5 ∧
      at' (vecOfList 1 [(10 : Nat), 20]) 5 = Except.error VecErr.outOfRange) :=
  ⟨⟨by decide, (C4_at_bounds_check (vecOfList 1 [(10 : Nat), 20]) 1).1 (by decide)⟩,
   ⟨by decide, (C4_at_bounds_check (vecOfList 1 [(10 : Nat), 20]) 5).2 (by decide)⟩⟩

/-- C9: self-copy-assignment and self-move-assignment hit the
`this == &other` guard and are identity operations: the state (size,
capacity, buffer address and contents) is returned unchanged, nothing is
freed or duplicated. -/
theorem C9_self_assignment (fresh : Addr) (a : Vec T) :
    opAssignCopy true fresh a a = a ∧ opAssignMove true a a = (a, a) := by
  constructor
  · unfold opAssignCopy
    rw [if_pos rfl]
  · unfold opAssignMove
    rw [if_pos rfl]

/-- C6: move construction and move assignment from a distinct source
transfer the source's elements, size, capacity and storage address without
copying elements, and leave the source empty with size 0, capacity 0 and a
null buffer, so that destroying the source (`free_`) is a no-op on the
transferred storage. -/
theorem C6_move_semantics (a dst : Vec T) :
    ((vecMoveCtor a).1 = a ∧
     (vecMoveCtor a).2.size_ = 0 ∧
     (vecMoveCtor a).2.capacity_ = 0 ∧
     (vecMoveCtor a).2.addr_ = 0 ∧
     free_ (vecMoveCtor a).2 = (vecMoveCtor a).2) ∧
    ((opAssignMove false dst a).1 = a ∧
     (opAssignMove false dst a).2.size_ = 0 ∧
     (opAssignMove false dst a).2.capacity_ = 0 ∧
     (opAssignMove false dst a).2.addr_ = 0 ∧
     free_ (opAssignMove false dst a).2 = (opAssignMove false dst a).2) := by
  refine ⟨⟨rfl, rfl, rfl, rfl, rfl⟩, ?_⟩
  unfold opAssignMove
  rw [if_neg Bool.false_ne_true]
  exact ⟨rfl, rfl, rfl, rfl, rfl⟩

/-- C2 (code bug): the state reached from the public sequence
construct-`{5,5}`, `clear()`, `shrink_to_fit()` violates invariant I2:
its capacity is 0 but its buffer pointer is not null (the code frees the
buffer and then `realloc(nullptr, 0)` hands back a non-null zero-size
allocation, modelled by the fresh address 2). -/
theorem C2_invariant_I2_violated :
    wf (vecOfList 1 [(5 : Nat), 5]) ∧
    (shrink_to_fit 2 (clear (vecOfList 1 [(5 : Nat), 5]))).capacity_ = 0 ∧
    (shrink_to_fit 2 (clear (vecOfList 1 [(5 : Nat), 5]))).addr_ ≠ 0 := by
  decide

/-- C7 (code bug): `shrink_to_fit` on a non-empty vector reallocates to
capacity exactly `size` and preserves the live elements, but on an empty
vector it does NOT leave the null/empty state the spec describes: capacity
becomes 0 while the buffer pointer is non-null. -/
theorem C7_shrink_to_fit :
    ((shrink_to_fit 2 (reserve 3 (vecOfList 1 [(1 : Nat), 2, 3]) 5)).capacity_ = 3 ∧
     (shrink_to_fit 2 (reserve 3 (vecOfList 1 [(1 : Nat), 2, 3]) 5)).size_ = 3 ∧
     liveSeq (shrink_to_fit 2 (reserve 3 (vecOfList 1 [(1 : Nat), 2, 3]) 5))
       = [some 1, some 2, some 3]) ∧
    ((shrink_to_fit 2 (vecDefault Nat 1)).size_ = 0 ∧
     (shrink_to_fit 2 (vecDefault Nat 1)).capacity_ = 0 ∧
     (shrink_to_fit 2 (vecDefault Nat 1)).addr_ ≠ 0) := by
  decide

/-- C8: `reserve(n)` with `n ≤ capacity` leaves the vector entirely
unchanged; with `n > capacity` it sets capacity to exactly `n` and
preserves the size and all live elements in order. -/
theorem C8_reserve (fresh : Addr) (s : Vec T) (n : Nat) (hwf : wf s) :
    (n ≤ s.capacity_ → reserve fresh s n = s) ∧
    (n > s.capacity_ →
      (reserve fresh s n).capacity_ = n ∧
      (reserve fresh s n).size_ = s.size_ ∧
      liveSeq (reserve fresh s n) = liveSeq s) := by
  constructor
  · intro h
    unfold reserve
    rw [if_neg (by omega)]
  · intro h
    obtain ⟨hw1, hw2⟩ := hwf
    obtain ⟨hsz, hcp, hln, hrd⟩ := reserve_of_ge fresh s n ⟨hw1, hw2⟩ (by omega)
    refine ⟨hcp, hsz, ?_⟩
    apply List.ext_getElem?
    intro i
    rw [liveSeq_getElem?, liveSeq_getElem?, hsz]
    by_cases hi : i < s.size_
    · rw [if_pos hi, if_pos hi, hrd i (by omega)]
    · rw [if_neg hi, if_neg hi]

theorem C8_reserve_witness :
    wf (vecFill 1 5 (1 : Nat)) ∧
    reserve 2 (vecFill 1 5 (1 : Nat)) 3 = vecFill 1 5 (1 : Nat) ∧
    ((reserve 2 (vecFill 1 5 (1 : Nat)) 10).capacity_ = 10 ∧
     (reserve 2 (vecFill 1 5 (1 : Nat)) 10).size_ = (vecFill 1 5 (1 : Nat)).size_ ∧
     liveSeq (reserve 2 (vecFill 1 5 (1 : Nat)) 10) = liveSeq (vecFill 1 5 (1 : Nat))) :=
  ⟨by decide,
   (C8_reserve 2 (vecFill 1 5 (1 : Nat)) 3 (by decide)).1 (by decide),
   (C8_reserve 2 (vecFill 1 5 (1 : Nat)) 10 (by decide)).2 (by decide)⟩

/-- C1: for `0 ≤ pos ≤ size`, every insert variant splices the new
element(s) into the live sequence at `pos` (`pos = size` appends), grows the
size by the number of inserted elements, never shrinks the capacity and
leaves it unchanged when the result already fits, and returns the position
of the first inserted element (`data_ + pos`, modelled as the offset `pos`). -/
theorem C1_insert_all_variants (fresh : Addr) (s : Vec T) (pos count : Nat)
    (elem : T) (elems : List T) (hwf : wf s) (hpos : pos ≤ s.size_) :
    (liveSeq (insert fresh s pos elem).1 = spliceAt (liveSeq s) pos [some elem] ∧
     (insert fresh s pos elem).1.size_ = s.size_ + 1 ∧
     s.capacity_ ≤ (insert fresh s pos elem).1.capacity_ ∧
     (s.size_ + 1 ≤ s.capacity_ → (insert fresh s pos elem).1.capacity_ = s.capacity_) ∧
     (insert fresh s pos elem).2 = pos) ∧
    (liveSeq (insertCount fresh s pos count elem).1
       = spliceAt (liveSeq s) pos (List.replicate count (some elem)) ∧
     (insertCount fresh s pos count elem).1.size_ = s.size_ + count ∧
     s.capacity_ ≤ (insertCount fresh s pos count elem).1.capacity_ ∧
     (s.size_ + count ≤ s.capacity_ →
       (insertCount fresh s pos count elem).1.capacity_ = s.capacity_) ∧
     (insertCount fresh s pos count elem).2 = pos) ∧
    (liveSeq (insertList fresh s pos elems).1
       = spliceAt (liveSeq s) pos (elems.map some) ∧
     (insertList fresh s pos elems).1.size_ = s.size_ + elems.length ∧
     s.capacity_ ≤ (insertList fresh s pos elems).1.capacity_ ∧
     (s.size_ + elems.length ≤ s.capacity_ →
       (insertList fresh s pos elems).1.capacity_ = s.capacity_) ∧
     (insertList fresh s pos elems).2 = pos) := by
  obtain ⟨h1, h2, h3, h4⟩ := insert_spec fresh s pos elem hwf hpos
  obtain ⟨g1, g2, g3, g4⟩ := insertCount_spec fresh s pos count elem hwf hpos
  obtain ⟨l1, l2, l3, l4⟩ := insertList_spec fresh s pos elems hwf hpos
  refine ⟨⟨h1, h2, ?_, ?_, h4⟩, ⟨g1, g2, ?_, ?_, g4⟩, ⟨l1, l2, ?_, ?_, l4⟩⟩
  · rw [h3]; exact growLoop_ge_cap _ _
  · intro hfit; rw [h3, growLoop_eq_of_le _ _ hfit]
  · rw [g3]; exact growLoop_ge_cap _ _
  · intro hfit; rw [g3, growLoop_eq_of_le _ _ hfit]
  · rw [l3]; exact growLoop_ge_cap _ _
  · intro hfit; rw [l3, growLoop_eq_of_le _ _ hfit]

theorem C1_insert_all_variants_witness :
    wf (vecOfList 1 [(1 : Nat), 2, 3]) ∧
    1 ≤ (vecOfList 1 [(1 : Nat), 2, 3]).size_ ∧
    liveSeq (insert 9 (vecOfList 1 [(1 : Nat), 2, 3]) 1 7).1
      = spliceAt (liveSeq (vecOfList 1 [(1 : Nat), 2, 3])) 1 [some 7] ∧
    liveSeq (insertCount 9 (vecOfList 1 [(1 : Nat), 2, 3]) 1 2 7).1
      = spliceAt (liveSeq (vecOfList 1 [(1 : Nat), 2, 3])) 1 (List.replicate 2 (some 7)) ∧
    liveSeq (insertList 9 (vecOfList 1 [(1 : Nat), 2, 3]) 1 [7, 8]).1
      = spliceAt (liveSeq (vecOfList 1 [(1 : Nat), 2, 3])) 1 ([7, 8].map some) :=
  ⟨by decide, by decide,
   (C1_insert_all_variants 9 (vecOfList 1 [(1 : Nat), 2, 3]) 1 2 7 [7, 8]
     (by decide) (by decide)).1.1,
   (C1_insert_all_variants 9 (vecOfList 1 [(1 : Nat), 2, 3]) 1 2 7 [7, 8]
     (by decide) (by decide)).2.1.1,
   (C1_insert_all_variants 9 (vecOfList 1 [(1 : Nat), 2, 3]) 1 2 7 [7, 8]
     (by decide) (by decide)).2.2.1⟩

/-- C5: the growth policy is `c + c / 2` with capacities 0 and 1 growing to
2; insertion finds the needed capacity by iterating `next_capacity_` until
`size + insertedCount` fits (the `growLoop` fixpoint); and the spec's
example scenario from `{1,2,3}` produces capacities 4, 6, 6. -/
theorem C5_growth_policy (c : Nat) (fresh : Addr) (s : Vec T) (pos count : Nat)
    (elem : T) (hwf : wf s) (hpos : pos ≤ s.size_) :
    (2 ≤ c → next_capacity_ c = c + c / 2) ∧
    (c ≤ 1 → next_capacity_ c = 2) ∧
    (growLoop c (s.size_ + count)
       = if s.size_ + count ≤ c then c
         else growLoop (next_capacity_ c) (s.size_ + count)) ∧
    (insert fresh s pos elem).1.capacity_ = growLoop s.capacity_ (s.size_ + 1) ∧
    (insertCount fresh s pos count elem).1.capacity_
      = growLoop s.capacity_ (s.size_ + count) ∧
    ((vecOfList 1 [(1 : Nat), 2, 3]).size_ = 3 ∧
     (vecOfList 1 [(1 : Nat), 2, 3]).capacity_ = 3 ∧
     liveSeq (insert 11 (vecOfList 1 [(1 : Nat), 2, 3]) 0 0).1
       = [some 0, some 1, some 2, some 3] ∧
     (insert 11 (vecOfList 1 [(1 : Nat), 2, 3]) 0 0).1.capacity_ = 4 ∧
     (insert 11 (vecOfList 1 [(1 : Nat), 2, 3]) 0 0).1.size_ = 4 ∧
     liveSeq (insert 12 (insert 11 (vecOfList 1 [(1 : Nat), 2, 3]) 0 0).1 4 4).1
       = [some 0, some 1, some 2, some 3, some 4] ∧
     (insert 12 (insert 11 (vecOfList 1 [(1 : Nat), 2, 3]) 0 0).1 4 4).1.capacity_ = 6 ∧
     liveSeq (insert 13 (insert 12 (insert 11 (vecOfList 1 [(1 : Nat), 2, 3]) 0 0).1 4 4).1 2 555).1
       = [some 0, some 1, some 555, some 2, some 3, some 4] ∧
     (insert 13 (insert 12 (insert 11 (vecOfList 1 [(1 : Nat), 2, 3]) 0 0).1 4 4).1 2 555).1.capacity_ = 6) := by
  refine ⟨?_, ?_, growLoop_unfold c (s.size_ + count), ?_, ?_, by decide⟩
  · intro h
    unfold next_capacity_
    rw [if_neg (by omega)]
  · intro h
    unfold next_capacity_
    rw [if_pos h]
  · exact (insert_spec fresh s pos elem hwf hpos).2.2.1
  · exact (insertCount_spec fresh s pos count elem hwf hpos).2.2.1

theorem C5_growth_policy_witness :
    wf (vecOfList 1 [(1 : Nat), 2, 3]) ∧
    1 ≤ (vecOfList 1 [(1 : Nat), 2, 3]).size_ ∧
    2 ≤ 4 ∧ next_capacity_ 4 = 4 + 4 / 2 ∧
    (insert 9 (vecOfList 1 [(1 : Nat), 2, 3]) 1 7).1.capacity_
      = growLoop (vecOfList 1 [(1 : Nat), 2, 3]).capacity_
          ((vecOfList 1 [(1 : Nat), 2, 3]).size_ + 1) :=
  ⟨by decide, by decide, by decide,
   (C5_growth_policy 4 9 (vecOfList 1 [(1 : Nat), 2, 3]) 1 2 7
     (by decide) (by decide)).1 (by decide),
   (C5_growth_policy 4 9 (vecOfList 1 [(1 : Nat), 2, 3]) 1 2 7
     (by decide) (by decide)).2.2.2.1⟩

/-- C3 counterexample: for the source `{1,2,3}` after `reserve(5)` (3 live
elements, capacity 5) the copy constructor allocates a buffer of 5 slots —
sized to the source's capacity, not to its 3 live elements — refuting
"allocates a new buffer sized to the source's live elements". -/
theorem C3_copy_counterexample :
    (reserve 4 (vecOfList 1 [(1 : Nat), 2, 3]) 5).size_ = 3 ∧
    (reserve 4 (vecOfList 1 [(1 : Nat), 2, 3]) 5).capacity_ = 5 ∧
    (vecCopyCtor 7 (reserve 4 (vecOfList 1 [(1 : Nat), 2, 3]) 5)).capacity_ = 5 ∧
    (vecCopyCtor 7 (reserve 4 (vecOfList 1 [(1 : Nat), 2, 3]) 5)).buf_.length = 5 ∧
    ¬((vecCopyCtor 7 (reserve 4 (vecOfList 1 [(1 : Nat), 2, 3]) 5)).buf_.length
        = (reserve 4 (vecOfList 1 [(1 : Nat), 2, 3]) 5).size_) := by
  decide

/-- C3 (amended): the copy constructor allocates a new buffer sized to the
source's capacity (it bulk-copies that many slots, not just the live ones);
copy assignment reuses the destination's buffer exactly when its capacity
already covers the source's size and otherwise reallocates to exactly the
source's size; in both cases all live slots are among the slots copied, so
the copy compares equal to the source and, for a non-empty source, occupies
storage distinct from the source's. -/
theorem C3_copy_semantics [DecidableEq T] (fresh : Addr) (a b : Vec T)
    (hwfa : wf a) (hwfb : wf b) (hfa : fresh ≠ a.addr_) :
    ((vecCopyCtor fresh a).capacity_ = a.capacity_ ∧
     (vecCopyCtor fresh a).size_ = a.size_ ∧
     liveSeq (vecCopyCtor fresh a) = liveSeq a ∧
     vecEq false (vecCopyCtor fresh a) a = true ∧
     (0 < a.size_ → (vecCopyCtor fresh a).addr_ ≠ a.addr_)) ∧
    ((a.size_ ≤ b.capacity_ →
       (opAssignCopy false fresh b a).capacity_ = b.capacity_ ∧
       (opAssignCopy false fresh b a).addr_ = b.addr_) ∧
     (b.capacity_ < a.size_ → (opAssignCopy false fresh b a).capacity_ = a.size_) ∧
     (opAssignCopy false fresh b a).size_ = a.size_ ∧
     liveSeq (opAssignCopy false fresh b a) = liveSeq a ∧
     vecEq false (opAssignCopy false fresh b a) a = true ∧
     (0 < a.size_ → b.addr_ ≠ a.addr_ →
       (opAssignCopy false fresh b a).addr_ ≠ a.addr_)) := by
  constructor
  · have hread : ∀ i, i < a.size_ →
        (vecCopyCtor fresh a).buf_.getD i none = a.buf_.getD i none := by
      intro i hi
      show (copy_ (alloc_ T fresh a.capacity_).2 0 a.buf_ 0 a.capacity_).getD i none = _
      rw [copy_read _ _ _ _ _ _ (by rw [alloc_length]; have := hwfa.2; omega),
        if_pos ⟨Nat.zero_le i, by have := hwfa.2; omega⟩]
      simp
    have hls : liveSeq (vecCopyCtor fresh a) = liveSeq a :=
      liveSeq_eq_of_reads a _ rfl hread
    refine ⟨rfl, rfl, hls, vecEq_of_liveSeq _ _ rfl hls, ?_⟩
    intro hp
    show (alloc_ T fresh a.capacity_).1 ≠ a.addr_
    unfold alloc_
    rw [if_neg (by have := hwfa.2; omega)]
    exact hfa
  · by_cases hcase : b.capacity_ < a.size_
    · have hd : opAssignCopy false fresh b a
          = { size_ := a.size_,
              capacity_ := (resize_ fresh b a.size_).capacity_,
              addr_ := (resize_ fresh b a.size_).addr_,
              buf_ := copy_ (resize_ fresh b a.size_).buf_ 0 a.buf_ 0
                        (resize_ fresh b a.size_).capacity_ } := by
        unfold opAssignCopy
        rw [if_neg Bool.false_ne_true, if_pos hcase]
      have hn0 : a.size_ ≠ 0 := by omega
      obtain ⟨r1, r2, r3, r4⟩ := resize_pos_spec fresh b a.size_ hn0
      have raddr := resize_pos_addr fresh b a.size_ hn0
      have hread : ∀ i, i < a.size_ →
          (opAssignCopy false fresh b a).buf_.getD i none = a.buf_.getD i none := by
        intro i hi
        rw [hd]
        show (copy_ (resize_ fresh b a.size_).buf_ 0 a.buf_ 0
          (resize_ fresh b a.size_).capacity_).getD i none = _
        rw [copy_read _ _ _ _ _ _ (by rw [r3]; omega),
          if_pos ⟨Nat.zero_le i, by rw [r2]; omega⟩]
        simp
      have hsize : (opAssignCopy false fresh b a).size_ = a.size_ := by rw [hd]
      have hls : liveSeq (opAssignCopy false fresh b a) = liveSeq a :=
        liveSeq_eq_of_reads a _ hsize hread
      refine ⟨fun h => absurd hcase (by omega), fun h => ?_, hsize, hls,
        vecEq_of_liveSeq _ _ hsize hls, fun hp hne => ?_⟩
      · rw [hd]
        exact r2
      · rw [hd]
        show (resize_ fresh b a.size_).addr_ ≠ a.addr_
        rw [raddr]
        by_cases hb0 : b.addr_ = 0
        · rw [if_pos hb0]; exact hfa
        · rw [if_neg hb0]; exact hne
    · have hd : opAssignCopy false fresh b a
          = { size_ := a.size_, capacity_ := b.capacity_, addr_ := b.addr_,
              buf_ := copy_ b.buf_ 0 a.buf_ 0 b.capacity_ } := by
        unfold opAssignCopy
        rw [if_neg Bool.false_ne_true, if_neg hcase]
      have hread : ∀ i, i < a.size_ →
          (opAssignCopy false fresh b a).buf_.getD i none = a.buf_.getD i none := by
        intro i hi
        rw [hd]
        show (copy_ b.buf_ 0 a.buf_ 0 b.capacity_).getD i none = _
        rw [copy_read _ _ _ _ _ _ (by rw [hwfb.1]; omega),
          if_pos ⟨Nat.zero_le i, by omega⟩]
        simp
      have hsize : (opAssignCopy false fresh b a).size_ = a.size_ := by rw [hd]
      have hls : liveSeq (opAssignCopy false fresh b a) = liveSeq a :=
        liveSeq_eq_of_reads a _ hsize hread
      refine ⟨fun h => ?_, fun h => absurd h (by omega), hsize, hls,
        vecEq_of_liveSeq _ _ hsize hls, fun hp hne => ?_⟩
      · rw [hd]
        exact ⟨rfl, rfl⟩
      · rw [hd]
        exact hne

theorem C3_copy_semantics_witness :
    wf (reserve 4 (vecOfList 1 [(1 : Nat), 2, 3]) 5) ∧
    wf (vecDefault Nat 2) ∧
    (7 : Addr) ≠ (reserve 4 (vecOfList 1 [(1 : Nat), 2, 3]) 5).addr_ ∧
    vecEq false (vecCopyCtor 7 (reserve 4 (vecOfList 1 [(1 : Nat), 2, 3]) 5))
      (reserve 4 (vecOfList 1 [(1 : Nat), 2, 3]) 5) = true ∧
    vecEq false (opAssignCopy false 7 (vecDefault Nat 2)
        (reserve 4 (vecOfList 1 [(1 : Nat), 2, 3]) 5))
      (reserve 4 (vecOfList 1 [(1 : Nat), 2, 3]) 5) = true :=
  ⟨by decide, by decide, by decide,
   (C3_copy_semantics 7 (reserve 4 (vecOfList 1 [(1 : Nat), 2, 3]) 5)
     (vecDefault Nat 2) (by decide) (by decide) (by decide)).1.2.2.2.1,
   (C3_copy_semantics 7 (reserve 4 (vecOfList 1 [(1 : Nat), 2, 3]) 5)
     (vecDefault Nat 2) (by decide) (by decide) (by decide)).2.2.2.2.2.1⟩

end LibDS
